import Mathlib

/-!
Shallow embedding of the milestone patch tool for stable releases
(`milestone-patches.py`, with the legacy resolver variant from `api.py`).

Pure data fetched from the forge api (issues, events, commits, graphql
nodes) is modelled as explicit structures; the repository's two commit
lookups are functions; HTTP transport (`requests.get`) is a function
`String → Option String` (`none` models a non-200 status); the external
`git interpret-trailers` subprocess is an abstract parameter
`String → String → String` taking the commit sha and the patch text.
Python `AssertionError` / fatal exits are modelled with `Except String`.
The on-disk `patches/` directory is a list of existing file paths.
-/

deriving instance DecidableEq for Except

namespace StableRelease

/-- A commit inside a pull request, as yielded by `pr.get_commits()`:
the identity key is `(commit.author.date, commit.message)`. -/
structure PRCommit where
  sha : String
  date : Nat
  message : String
deriving DecidableEq

/-- One entry of an issue's or pull request's event log (`get_events()`). -/
structure Event where
  event : String
  commit_id : Option String
  commit_url : Option String
deriving DecidableEq

/-- A repository commit as returned by `repo.get_commit` /
`repo.get_commits`, with its parent shas and the html url used to build
the `.patch` download url. -/
structure RepoCommit where
  sha : String
  date : Nat
  message : String
  parents : List String
  html_url : String
deriving DecidableEq

/-- A node of the graphql `closedByPullRequestsReferences` reply. -/
structure RefNode where
  permalink : String
  mergeCommit : Option String
deriving DecidableEq

/-- A milestone item: a github issue, together with the pull-request data
accessible through `issue.as_pull_request()` when `issue.pull_request`
is set. `commitCount` is the `pr.commits` field; `prCommits` is the list
from `pr.get_commits()`. -/
structure Issue where
  number : Nat
  state : String
  closed_at : Nat
  is_pr : Bool
  merged : Bool
  events : List Event
  prCommits : List PRCommit
  commitCount : Nat
  nodes : List RefNode
  patch_url : String
deriving DecidableEq

/-- The repository api surface the tool consumes: `get_commit(sha)` and
`get_commits(sha)`, the latter walking history from `sha`, newest first. -/
structure Repo where
  getCommit : String → Option RepoCommit
  getCommits : String → List RepoCommit

/-- The hard-coded commit-url domain every merge/closing event must
belong to ('https://api.github.com/repos/mesonbuild/meson/commits/'). -/
def commitUrlBase : String := "https://api.github.com/repos/mesonbuild/meson/commits/"

/-- The hard-coded pull-request permalink domain
('https://github.com/mesonbuild/meson/pull/'). -/
def pullUrlBase : String := "https://github.com/mesonbuild/meson/pull/"

/-- `s.startswith(p)` of python, char by char. -/
def strStarts (s p : String) : Bool := p.data.isPrefixOf s.data

/-- The graphql issue-closure scan of `issue_get_closing_sha`
(milestone-patches.py, lines 71-83): walk the
`closedByPullRequestsReferences` nodes; a permalink outside the
configured repository raises; a node without a merge commit is skipped;
the first merge commit oid is returned.  After the loop, a non-closed
issue raises, and a closed one warns and returns `None`. -/
def closingScan (issue : Issue) : List RefNode → Except String (Option String)
  | [] =>
    if issue.state ≠ "closed" then
      .error "issue is not closed, double-check"
    else
      .ok none
  | n :: rest =>
    if ¬ strStarts n.permalink pullUrlBase then
      .error "closing PR has a url to a different repo"
    else
      match n.mergeCommit with
      | none => closingScan issue rest
      | some oid => .ok (some oid)

/-- `issue_get_closing_sha(issue)` of milestone-patches.py. -/
def issue_get_closing_sha (issue : Issue) : Except String (Option String) :=
  closingScan issue issue.nodes

/-- The legacy event-log variant of `issue_get_closing_sha` (api.py,
lines 34-56): find the 'closed' event; if it carries no commit, look at
the immediately following event; missing commit id or url raises, as
does a url outside the configured repository.  Note it can only return
a commit id or fail; there is no `None` fallback. -/
def issue_get_closing_sha_legacy : List Event → Except String String
  | [] => .error "issue is not closed, double-check"
  | e :: rest =>
    if e.event ≠ "closed" then
      issue_get_closing_sha_legacy rest
    else
      match (if e.commit_id = none then rest.head? else some e) with
      | none => .error "StopIteration"
      | some e2 =>
        match e2.commit_id, e2.commit_url with
        | some cid, some curl =>
          if strStarts curl commitUrlBase then .ok cid
          else .error "closing event has a url to a different repo"
        | _, _ => .error "issue was closed but no commit was associated"

/-- `pr_get_merging_sha(issuepr)` (identical in both scripts): find the
first event of type 'merged'; a missing commit id or commit url raises,
a commit url outside the configured repository raises; otherwise the
event's commit id is returned.  No 'merged' event at all raises. -/
def pr_get_merging_sha : List Event → Except String String
  | [] => .error "PR is not merged, double-check"
  | e :: rest =>
    if e.event ≠ "merged" then
      pr_get_merging_sha rest
    else
      match e.commit_id, e.commit_url with
      | some cid, some curl =>
        if strStarts curl commitUrlBase then .ok cid
        else .error "merged event has a url to a different repo"
      | _, _ => .error "PR was merged but no commit was associated"

/-- Membership of a repo commit's `(author date, message)` key in the
`pr_shas` dictionary built from the PR's own commits. -/
def keyMatches (issuepr : Issue) (c : RepoCommit) : Bool :=
  issuepr.prCommits.any (fun p => p.date == c.date && p.message == c.message)

/-- The top-of-branch commit choice: the second parent of a 2-parent
merge commit, otherwise the merge sha itself. -/
def topShaOf (mc : RepoCommit) (merge_sha : String) : String :=
  match mc.parents with
  | [_, p2] => p2
  | _ => merge_sha

/-- The history walk: `repo.get_commits(top_sha)[:pr.commits]`. -/
def walkedCommits (issuepr : Issue) (repo : Repo) (top_sha : String) : List RepoCommit :=
  (repo.getCommits top_sha).take issuepr.commitCount

/-- `pr_get_repo_shas(issuepr, repo)` (milestone-patches.py, lines
102-134): resolve the merge sha, pick the top-of-branch commit, walk
`pr.commits` commits of repository history from it and collect their
shas (each walked commit is appended whether or not its identity key
matches a PR commit; a mismatch only prints a warning).  If the
collected list is empty, return `[top_sha]`. -/
def pr_get_repo_shas (issuepr : Issue) (repo : Repo) : Except String (List String) :=
  match pr_get_merging_sha issuepr.events with
  | .error e => .error e
  | .ok merge_sha =>
    match repo.getCommit merge_sha with
    | none => .error "unknown object"
    | some merge_commit =>
      let top_sha := topShaOf merge_commit merge_sha
      let repo_shas := (walkedCommits issuepr repo top_sha).map (fun c => c.sha)
      if repo_shas.isEmpty then .ok [top_sha]
      else .ok repo_shas

/-- Is a sha already a key of the `shas` mapping? -/
def hasKey (s : String) (m : List (String × Nat)) : Bool :=
  m.any (fun p => p.1 == s)

/-- Indexing one PR's resolved shas into the commit → PR mapping
(`shas[sha] = issuepr` with the duplicate check), recording the PR
number. -/
def insertShas (prn : Nat) : List String → List (String × Nat) → Except String (List (String × Nat))
  | [], m => .ok m
  | s :: rest, m =>
    if hasKey s m then .error "tried to add a commit twice"
    else insertShas prn rest ((s, prn) :: m)

/-- The first loop of `verify_issue_fixes_are_milestoned`: resolve every
pull request and index every resulting commit sha, raising on any
collision. -/
def verify_build_shas (repo : Repo) : List Issue → List (String × Nat) → Except String (List (String × Nat))
  | [], m => .ok m
  | p :: rest, m =>
    match pr_get_repo_shas p repo with
    | .error e => .error e
    | .ok shas =>
      match insertShas p.number shas m with
      | .error e => .error e
      | .ok m1 => verify_build_shas repo rest m1

/-- The second loop of `verify_issue_fixes_are_milestoned`: resolve each
issue's closing sha; `None` is skipped; a sha absent from the mapping
only produces a warning string. -/
def verify_issue_pass (m : List (String × Nat)) : List Issue → Except String (List String)
  | [] => .ok []
  | iss :: rest =>
    match issue_get_closing_sha iss with
    | .error e => .error e
    | .ok none => verify_issue_pass m rest
    | .ok (some s) =>
      match verify_issue_pass m rest with
      | .error e => .error e
      | .ok ws =>
        if hasKey s m then .ok ws
        else .ok (("WARNING: Could not find a PR that closed issue " ++ toString iss.number) :: ws)

/-- `verify_issue_fixes_are_milestoned(repo, issues, pulls)`
(milestone-patches.py, lines 136-158). -/
def verify_issue_fixes_are_milestoned (repo : Repo) (issues pulls : List Issue) : Except String (List String) :=
  match verify_build_shas repo pulls [] with
  | .error e => .error e
  | .ok m => verify_issue_pass m issues

/-- The characters of the last '/'-separated component, scanning the
reversed character list. -/
def takeUntilSlash : List Char → List Char
  | [] => []
  | c :: rest => if c = '/' then [] else c :: takeUntilSlash rest

/-- `os.path.basename` for the forward-slash urls the tool handles. -/
def basename (s : String) : String :=
  ⟨(takeUntilSlash s.data.reverse).reverse⟩

/-- Rendering of the dictionary key `d` (the issue's closed timestamp)
into the file name; models the injective
`d.strftime('%Y-%m-%dT%H%M%S')` rendering of the timestamp. -/
def dateStr (d : Nat) : String := toString d

/-- The deterministic patch file name
`'{}--PR{}'.format(d.strftime(...), os.path.basename(url))`. -/
def patchName (d : Nat) (url : String) : String :=
  dateStr d ++ "--PR" ++ basename url

/-- Path of a patch file inside the active output directory. -/
def outPath (fname : String) : String := "patches/" ++ fname

/-- Path of a patch file inside the archived `done` subdirectory. -/
def donePath (fname : String) : String := "patches/done/" ++ fname

/-- One replacement pass of `str.replace(pat, rep)` over character
lists, with the list length as structural fuel. -/
def replaceFrom (pat rep : List Char) : Nat → List Char → List Char
  | _, [] => []
  | 0, l => l
  | fuel + 1, c :: rest =>
    if pat.isPrefixOf (c :: rest) then
      rep ++ replaceFrom pat rep fuel ((c :: rest).drop pat.length)
    else
      c :: replaceFrom pat rep fuel rest

/-- `s.replace(pat, rep)` of python. -/
def strReplace (s pat rep : String) : String :=
  ⟨replaceFrom pat.data rep.data s.data.length s.data⟩

/-- `'\n'.join(resp)` of python. -/
def joinNL : List String → String
  | [] => ""
  | [x] => x
  | x :: y :: rest => x ++ "\x0a" ++ joinNL (y :: rest)

/-- The patch download url of a repo commit:
`repo.get_commit(sha).html_url + '.patch'`. -/
def commitPatchUrl (repo : Repo) (s : String) : String :=
  match repo.getCommit s with
  | some c => c.html_url ++ ".patch"
  | none => ""

/-- The fetch loop body of `pr_to_patch` (milestone-patches.py, lines
191-203), over an already-reversed sha list.  `net` models
`requests.get` (`none` is a non-200 status, making the whole PR fail
with the offending url carried in the error); `tf` models the external
`git interpret-trailers --trailer=(cherry picked from commit sha)=deleteme`
rewrite, whose output then has '=deleteme:' stripped.  The second
component counts the network fetches performed. -/
def fetchLoop (net : String → Option String) (repo : Repo) (tf : String → String → String) :
    List String → Except String (List String) × Nat
  | [] => (.ok [], 0)
  | sha :: rest =>
    match repo.getCommit sha with
    | none => (.error "unknown object", 0)
    | some c =>
      let url := c.html_url ++ ".patch"
      match net url with
      | none => (.error url, 1)
      | some text =>
        let patch := strReplace (tf sha text) "=deleteme:" ""
        match fetchLoop net repo tf rest with
        | (.error e, n) => (.error e, n + 1)
        | (.ok ps, n) => (.ok (patch :: "" :: ps), n + 1)

/-- `pr_to_patch(shas)` (milestone-patches.py, lines 189-206): fetch the
patches in `reversed(shas)` order (oldest first) and join them with
blank-line separators; any failed fetch aborts with the fetch url. -/
def pr_to_patch (net : String → Option String) (repo : Repo) (tf : String → String → String)
    (shas : List String) : Except String String × Nat :=
  match fetchLoop net repo tf shas.reverse with
  | (.error e, n) => (.error e, n)
  | (.ok ps, n) => (.ok (joinNL ps ++ "\x0a"), n)

/-- Outcome of materializing one pull request. -/
inductive Outcome where
  | written
  | skipped
  | failed
deriving DecidableEq

/-- One iteration of the patch materialization loop
(milestone-patches.py, lines 210-228) for the dictionary entry
`(d, issuepr)` against an on-disk state `fs` (list of existing paths):
skip without any network call when the deterministically named file
already exists in `patches/` or `patches/done/`; otherwise resolve the
PR's shas (an `AssertionError` there crashes the run, hence
`Except.error`), fetch the patch text, and either record the failure
(file system untouched) or write the file.  The `Nat` counts the
network fetches performed. -/
def materializeStep (net : String → Option String) (repo : Repo) (tf : String → String → String)
    (fs : List String) (d : Nat) (issuepr : Issue) : Except String (Outcome × List String × Nat) :=
  let fname := patchName d issuepr.patch_url
  if fs.contains (outPath fname) || fs.contains (donePath fname) then
    .ok (.skipped, fs, 0)
  else
    match pr_get_repo_shas issuepr repo with
    | .error e => .error e
    | .ok shas =>
      match pr_to_patch net repo tf shas with
      | (.error _, n) => .ok (.failed, fs, n)
      | (.ok _, n) => .ok (.written, outPath fname :: fs, n)

/-- The whole `for d, issuepr in pulls.items()` materialization loop:
outcomes in order, final file system, total network fetches. -/
def materializeLoop (net : String → Option String) (repo : Repo) (tf : String → String → String)
    (fs : List String) : List (Nat × Issue) → Except String (List Outcome × List String × Nat)
  | [] => .ok ([], fs, 0)
  | (d, issuepr) :: rest =>
    match materializeStep net repo tf fs d issuepr with
    | .error e => .error e
    | .ok (o, fs1, n) =>
      match materializeLoop net repo tf fs1 rest with
      | .error e => .error e
      | .ok (os, fs2, m) => .ok (o :: os, fs2, n + m)

/-- Python `dict` insert `m[k] = v`: overwrite in place, else append. -/
def dinsert (k : Nat) (v : Issue) : List (Nat × Issue) → List (Nat × Issue)
  | [] => [(k, v)]
  | (k', v') :: rest =>
    if k = k' then (k, v) :: rest else (k', v') :: dinsert k v rest

/-- Python `dict` lookup. -/
def dlookup (k : Nat) : List (Nat × Issue) → Option Issue
  | [] => none
  | (k', v) :: rest => if k = k' then some v else dlookup k rest

/-- The milestone intake loop (milestone-patches.py, lines 170-181):
partition the closed milestone items into the `issues` and `pulls`
dictionaries, both keyed by `issue.closed_at`; a closed-but-unmerged
pull request terminates the run (`exit(1)`). -/
def milestoneIntakeAux (iss pls : List (Nat × Issue)) :
    List Issue → Except String (List (Nat × Issue) × List (Nat × Issue))
  | [] => .ok (iss, pls)
  | it :: rest =>
    if it.is_pr then
      if it.merged then milestoneIntakeAux iss (dinsert it.closed_at it pls) rest
      else .error "Pull request was closed, not merged. Remove it from the milestone."
    else milestoneIntakeAux (dinsert it.closed_at it iss) pls rest

/-- The milestone intake starting from empty dictionaries. -/
def milestoneIntake (items : List Issue) :
    Except String (List (Nat × Issue) × List (Nat × Issue)) :=
  milestoneIntakeAux [] [] items

/-- The whole run after the milestone fetch (milestone-patches.py, lines
170-228): intake, the guarded verification
(`if len(issues) > 0 and not options.no_verify`), then the
materialization loop over the pulls dictionary. -/
def runPipeline (no_verify : Bool) (net : String → Option String) (repo : Repo)
    (tf : String → String → String) (fs : List String) (items : List Issue) :
    Except String (List Outcome × List String × Nat) :=
  match milestoneIntake items with
  | .error e => .error e
  | .ok (issues, pulls) =>
    if issues.length > 0 && !no_verify then
      match verify_issue_fixes_are_milestoned repo (issues.map Prod.snd) (pulls.map Prod.snd) with
      | .error e => .error e
      | .ok _ => materializeLoop net repo tf fs pulls
    else materializeLoop net repo tf fs pulls

/-- Is a sha list sorted oldest-first by the repository's author dates? -/
def sortedByDate (repo : Repo) : List String → Bool
  | [] => true
  | [_] => true
  | a :: b :: rest =>
    (match repo.getCommit a, repo.getCommit b with
     | some ca, some cb => Nat.ble ca.date cb.date
     | _, _ => true) && sortedByDate repo (b :: rest)

/-- `lastOf l` is the last element of `l`, the value a python dict keeps
after inserting every element of `l` under one key. -/
def lastOf : List Issue → Option Issue
  | [] => none
  | [x] => some x
  | _ :: y :: rest => lastOf (y :: rest)

/-- First-some choice on options (python dict fallback shape). -/
def olast (a b : Option Issue) : Option Issue :=
  match a with
  | some x => some x
  | none => b

/-! Concrete forge snapshots used to instantiate the theorems. -/

/-- A 'merged' event pointing at merge commit `M` of the configured repo. -/
def evMergedA : Event := ⟨"merged", some "M", some (commitUrlBase ++ "M")⟩

/-- The merge commit `M`: a true merge, parents `[base, p2r]`. -/
def cM : RepoCommit := ⟨"M", 30, "Merge pull request #60", ["base", "p2r"], "hM"⟩

/-- The rebased top-of-branch commit (newer of the two PR commits). -/
def cNew : RepoCommit := ⟨"p2r", 20, "new", ["p1r"], "hNew"⟩

/-- The rebased bottom commit (older of the two PR commits). -/
def cOld : RepoCommit := ⟨"p1r", 10, "old", [], "hOld"⟩

/-- A pull request with two commits, merged via the true merge commit `M`. -/
def prA : Issue :=
  ⟨60, "closed", 100, true, true, [evMergedA],
   [⟨"p1", 10, "old"⟩, ⟨"p2", 20, "new"⟩], 2, [], pullUrlBase ++ "60.patch"⟩

/-- The repository holding `M`, `p2r`, `p1r`; history from `p2r` is
newest first. -/
def repoA : Repo :=
  ⟨fun s =>
     if s = "M" then some cM
     else if s = "p2r" then some cNew
     else if s = "p1r" then some cOld
     else none,
   fun s =>
     if s = "M" then [cM, cNew, cOld]
     else if s = "p2r" then [cNew, cOld]
     else if s = "p1r" then [cOld]
     else []⟩

/-- A 'merged' event pointing at squash commit `S`. -/
def evMergedS : Event := ⟨"merged", some "S", some (commitUrlBase ++ "S")⟩

/-- The squash commit: one parent, an identity key matching no PR commit. -/
def cS : RepoCommit := ⟨"S", 50, "squashed: a and b", ["base2"], "hS"⟩

/-- The unrelated mainline commit below the squash commit. -/
def cBase2 : RepoCommit := ⟨"base2", 40, "unrelated mainline work", [], "hB2"⟩

/-- A squashed pull request: two PR commits, none of whose identity keys
occur in the walked history. -/
def prS : Issue :=
  ⟨77, "closed", 200, true, true, [evMergedS],
   [⟨"q1", 11, "a"⟩, ⟨"q2", 12, "b"⟩], 2, [], pullUrlBase ++ "77.patch"⟩

/-- The repository after the squash merge of `prS`. -/
def repoS : Repo :=
  ⟨fun s =>
     if s = "S" then some cS
     else if s = "base2" then some cBase2
     else none,
   fun s =>
     if s = "S" then [cS, cBase2]
     else if s = "base2" then [cBase2]
     else []⟩

/-- A 'merged' event pointing at commit `B1`. -/
def evMergedB : Event := ⟨"merged", some "B1", some (commitUrlBase ++ "B1")⟩

/-- A single rebased commit on the mainline. -/
def cB1 : RepoCommit := ⟨"B1", 60, "fix bug", [], "hB1"⟩

/-- A single-commit pull request rebased in as `B1`. -/
def prB : Issue :=
  ⟨10, "closed", 100, true, true, [evMergedB],
   [⟨"pb", 60, "fix bug"⟩], 1, [], pullUrlBase ++ "10.patch"⟩

/-- A second, distinct pull request that also resolves to `B1`. -/
def prB2 : Issue :=
  ⟨11, "closed", 101, true, true, [evMergedB],
   [⟨"pb", 60, "fix bug"⟩], 1, [], pullUrlBase ++ "11.patch"⟩

/-- The repository holding only `B1`. -/
def repoB : Repo :=
  ⟨fun s => if s = "B1" then some cB1 else none,
   fun s => if s = "B1" then [cB1] else []⟩

/-- A transport that always answers 200 with a fixed patch body. -/
def netB : String → Option String := fun _ => some "PATCHTEXT"

/-- A transport that always answers a non-200 status. -/
def netFail : String → Option String := fun _ => none

/-- A trailer rewrite that keeps the patch text unchanged. -/
def tfB : String → String → String := fun _ t => t

/-- An issue closed by a pull request whose merge commit is `Z`. -/
def issueC : Issue :=
  ⟨9, "closed", 50, false, false, [], [], 0,
   [⟨pullUrlBase ++ "9", some "Z"⟩], ""⟩

/-- An issue closed manually: one reference node inside the repo but
with no merge commit. -/
def issueD : Issue :=
  ⟨12, "closed", 55, false, false, [], [], 0,
   [⟨pullUrlBase ++ "5", none⟩], ""⟩

/-- A 'closed' event carrying no commit. -/
def evClosedNC : Event := ⟨"closed", none, none⟩

/-- A follow-up event also carrying no commit. -/
def evCommentNC : Event := ⟨"commented", none, none⟩

/-- A merged pull request closed at timestamp 5. -/
def prX : Issue :=
  ⟨21, "closed", 5, true, true, [evMergedB],
   [⟨"pb", 60, "fix bug"⟩], 1, [], pullUrlBase ++ "21.patch"⟩

/-- A second merged pull request also closed at timestamp 5. -/
def prY : Issue :=
  ⟨22, "closed", 5, true, true, [evMergedB],
   [⟨"pb", 60, "fix bug"⟩], 1, [], pullUrlBase ++ "22.patch"⟩

/-- A closed-but-unmerged pull request still attached to the milestone. -/
def prU : Issue :=
  ⟨23, "closed", 7, true, false, [], [], 0, [], pullUrlBase ++ "23.patch"⟩

/-! Theorems. -/

/-- C1 counterexample: `prA` was merged via the true merge commit `M`
(exactly 2 parents) and has 2 commits, the walk from the second parent
confirms both identity keys, yet `pr_get_repo_shas` returns the walked
commits in walk order (newest first, author dates 20 then 10), not in
oldest-first order. -/
theorem c1_counterexample :
    pr_get_repo_shas prA repoA = .ok ["p2r", "p1r"] ∧
    (repoA.getCommit "M").map (fun c => c.parents.length) = some 2 ∧
    prA.commitCount = 2 ∧
    ((walkedCommits prA repoA "p2r").filter (keyMatches prA)).length = 2 ∧
    (repoA.getCommit "p2r").map (fun c => c.date) = some 20 ∧
    (repoA.getCommit "p1r").map (fun c => c.date) = some 10 ∧
    sortedByDate repoA ["p2r", "p1r"] = false :=
  ⟨by decide, by decide, by decide, by decide, by decide, by decide, by decide⟩

/-- C1 (amended): for a pull request merged via a true merge commit
(exactly 2 parents), `pr_get_repo_shas` takes the second parent as the
top-of-branch commit, walks exactly `N = pr.commits` commits from it
(when the history is deep enough and the walk is non-empty), and
returns their shas in walk order, i.e. newest first; the reversal to
oldest-first application order happens later, in `pr_to_patch`. -/
theorem c1_true_merge_walks_second_parent (issuepr : Issue) (repo : Repo) (ms : String)
    (mc : RepoCommit) (p1 p2 : String)
    (hms : pr_get_merging_sha issuepr.events = .ok ms)
    (hmc : repo.getCommit ms = some mc)
    (hpar : mc.parents = [p1, p2])
    (hne : walkedCommits issuepr repo p2 ≠ [])
    (hlen : issuepr.commitCount ≤ (repo.getCommits p2).length) :
    pr_get_repo_shas issuepr repo =
      .ok ((walkedCommits issuepr repo p2).map (fun c => c.sha)) ∧
    (walkedCommits issuepr repo p2).length = issuepr.commitCount := by
  have htop : topShaOf mc ms = p2 := by simp [topShaOf, hpar]
  constructor
  · have hmap : ((walkedCommits issuepr repo p2).map (fun c => c.sha)).isEmpty = false := by
      rcases h : walkedCommits issuepr repo p2 with _ | ⟨a, l⟩
      · exact absurd h hne
      · simp
    simp only [pr_get_repo_shas, hms, hmc, htop]
    simp [hmap]
  · rw [walkedCommits, List.length_take]
    exact min_eq_left hlen

/-- C1 witness: the amended statement applied to the concrete snapshot
`prA` / `repoA`. -/
theorem c1_witness :
    pr_get_repo_shas prA repoA =
      .ok ((walkedCommits prA repoA "p2r").map (fun c => c.sha)) ∧
    (walkedCommits prA repoA "p2r").length = prA.commitCount :=
  c1_true_merge_walks_second_parent prA repoA "M" cM "base" "p2r" rfl rfl rfl
    (by decide) (by decide)

/-- C2 (code bug): for the squashed pull request `prS` the history walk
confirms zero identity matches, yet `pr_get_repo_shas` returns both
walked commits — the squash commit `S` plus the unrelated mainline
commit `base2` — instead of the single-element `[top_sha] = ["S"]` that
the comment 'None of the commits could be found, it's probably a
squashed commit. Return it.' (and the spec) promise: the guard tests
list emptiness, but non-matching walked commits were appended anyway. -/
theorem c2_zero_matches_still_returns_walk :
    ((walkedCommits prS repoS "S").filter (keyMatches prS)).length = 0 ∧
    topShaOf cS "S" = "S" ∧
    pr_get_repo_shas prS repoS = .ok ["S", "base2"] ∧
    pr_get_repo_shas prS repoS ≠ .ok ["S"] :=
  ⟨by decide, by decide, by decide, by decide⟩

/-- C3: merge-provenance resolution succeeds with sha `sha` exactly when
the first event of type 'merged' carries commit id `sha` and a commit
url inside the configured repository; in every other case — no 'merged'
event, missing commit id or url, or a url with the wrong domain — it
fails. -/
theorem c3_merging_sha_ok_iff (evs : List Event) (sha : String) :
    pr_get_merging_sha evs = .ok sha ↔
      ∃ e u, evs.find? (fun ev => ev.event == "merged") = some e ∧
        e.commit_id = some sha ∧ e.commit_url = some u ∧
        strStarts u commitUrlBase = true := by
  induction evs with
  | nil => simp [pr_get_merging_sha]
  | cons e rest ih =>
    by_cases he : e.event = "merged"
    · have hb : (e.event == "merged") = true := by simp [he]
      have hfind : (e :: rest).find? (fun ev => ev.event == "merged") = some e := by
        simp only [List.find?_cons, hb]
      rw [hfind]
      rw [pr_get_merging_sha, if_neg (by simp [he])]
      rcases hcid : e.commit_id with _ | cid <;>
        rcases hurl : e.commit_url with _ | u
      · simp [hcid]
      · simp [hcid]
      · simp [hurl]
      · by_cases hs : strStarts u commitUrlBase = true
        · simp only [hs, if_true]
          constructor
          · intro h
            injection h with hcs
            exact ⟨e, u, rfl, by rw [hcid, hcs], hurl, hs⟩
          · rintro ⟨e', u', he', h1, h2, h3⟩
            have hee : e = e' := Option.some.inj he'
            subst hee
            rw [hcid] at h1
            injection h1 with hcs
            rw [hcs]
        · simp only [Bool.not_eq_true] at hs
          simp [hs, hurl]
    · have hb : (e.event == "merged") = false := by simp [he]
      have hfind : (e :: rest).find? (fun ev => ev.event == "merged") =
          rest.find? (fun ev => ev.event == "merged") := by
        simp only [List.find?_cons, hb]
      rw [hfind, pr_get_merging_sha, if_pos (by simp [he])]
      exact ih

/-- Key membership after a cons on the mapping. -/
theorem hasKey_cons (s t : String) (n : Nat) (m : List (String × Nat)) :
    hasKey s ((t, n) :: m) = (t == s || hasKey s m) := by
  simp [hasKey]

/-- Successful indexing only grows the key set. -/
theorem insertShas_mono (prn : Nat) (shas : List String) (m m1 : List (String × Nat))
    (s : String) (h : insertShas prn shas m = .ok m1) (hs : hasKey s m = true) :
    hasKey s m1 = true := by
  induction shas generalizing m with
  | nil =>
    rw [insertShas] at h
    cases h
    exact hs
  | cons a rest ih =>
    rw [insertShas] at h
    split at h
    · cases h
    · exact ih ((a, prn) :: m) h (by rw [hasKey_cons, hs, Bool.or_true])
  -- structural note: the error branch is impossible for an ok result

/-- Every sha successfully indexed was fresh with respect to the
mapping it was indexed into. -/
theorem insertShas_fresh (prn : Nat) (shas : List String) (m m1 : List (String × Nat))
    (h : insertShas prn shas m = .ok m1) :
    ∀ s ∈ shas, hasKey s m = false := by
  induction shas generalizing m with
  | nil => intro s hs; cases hs
  | cons a rest ih =>
    rw [insertShas] at h
    split at h
    · cases h
    · intro s hs
      rcases List.mem_cons.mp hs with rfl | hs'
      · simpa using ‹¬ hasKey s m = true›
      · have := ih ((a, prn) :: m) h s hs'
        rw [hasKey_cons] at this
        exact (Bool.or_eq_false_iff.mp this).2

/-- Every sha successfully indexed ends up a key of the final mapping. -/
theorem insertShas_puts (prn : Nat) (shas : List String) (m m1 : List (String × Nat))
    (h : insertShas prn shas m = .ok m1) :
    ∀ s ∈ shas, hasKey s m1 = true := by
  induction shas generalizing m with
  | nil => intro s hs; cases hs
  | cons a rest ih =>
    rw [insertShas] at h
    split at h
    · cases h
    · intro s hs
      rcases List.mem_cons.mp hs with rfl | hs'
      · exact insertShas_mono prn rest ((s, prn) :: m) m1 s h
          (by rw [hasKey_cons, beq_self_eq_true]; rfl)
      · exact ih ((a, prn) :: m) h s hs'

/-- The whole first verification loop only grows the key set. -/
theorem build_shas_mono (repo : Repo) (ps : List Issue) (m m' : List (String × Nat))
    (s : String) (h : verify_build_shas repo ps m = .ok m') (hs : hasKey s m = true) :
    hasKey s m' = true := by
  induction ps generalizing m with
  | nil =>
    rw [verify_build_shas] at h
    cases h
    exact hs
  | cons p rest ih =>
    rw [verify_build_shas] at h
    split at h
    · cases h
    · split at h
      · cases h
      · exact ih _ h (insertShas_mono _ _ _ _ s (by assumption) hs)

/-- Every sha of every pull request processed by a successful first
verification loop was fresh with respect to the loop's starting
mapping. -/
theorem build_shas_fresh (repo : Repo) (ps : List Issue) (m m' : List (String × Nat))
    (h : verify_build_shas repo ps m = .ok m') :
    ∀ p ∈ ps, ∀ shas, pr_get_repo_shas p repo = .ok shas →
      ∀ s ∈ shas, hasKey s m = false := by
  induction ps generalizing m with
  | nil => intro p hp; cases hp
  | cons p0 rest ih =>
    rcases hres0 : pr_get_repo_shas p0 repo with e0 | shas0
    · simp only [verify_build_shas, hres0] at h
      cases h
    · rcases hins : insertShas p0.number shas0 m with e1 | m1
      · simp only [verify_build_shas, hres0, hins] at h
        cases h
      · simp only [verify_build_shas, hres0, hins] at h
        intro p hp shas hshas s hs
        rcases List.mem_cons.mp hp with rfl | hp'
        · rw [hres0] at hshas
          cases hshas
          exact insertShas_fresh _ _ _ _ hins s hs
        · have h1 := ih _ h p hp' shas hshas s hs
          by_contra hcon
          rw [Bool.not_eq_false] at hcon
          rw [insertShas_mono _ _ _ _ s hins hcon] at h1
          cases h1

/-- Every sha of every pull request processed by a successful first
verification loop is a key of the final mapping. -/
theorem build_shas_puts (repo : Repo) (ps : List Issue) (m m' : List (String × Nat))
    (h : verify_build_shas repo ps m = .ok m') :
    ∀ p ∈ ps, ∀ shas, pr_get_repo_shas p repo = .ok shas →
      ∀ s ∈ shas, hasKey s m' = true := by
  induction ps generalizing m with
  | nil => intro p hp; cases hp
  | cons p0 rest ih =>
    rcases hres0 : pr_get_repo_shas p0 repo with e0 | shas0
    · simp only [verify_build_shas, hres0] at h
      cases h
    · rcases hins : insertShas p0.number shas0 m with e1 | m1
      · simp only [verify_build_shas, hres0, hins] at h
        cases h
      · simp only [verify_build_shas, hres0, hins] at h
        intro p hp shas hshas s hs
        rcases List.mem_cons.mp hp with rfl | hp'
        · rw [hres0] at hshas
          cases hshas
          exact build_shas_mono repo rest m1 m' s h (insertShas_puts _ _ _ _ hins s hs)
        · exact ih _ h p hp' shas hshas s hs

/-- Two pull requests at distinct positions of a successfully indexed
pull list can share no resolved sha. -/
theorem build_shas_disjoint (repo : Repo) (ps : List Issue) (m m' : List (String × Nat))
    (i j : Nat) (pi pj : Issue) (si sj : List String) (s : String)
    (h : verify_build_shas repo ps m = .ok m')
    (hgi : ps.get? i = some pi) (hgj : ps.get? j = some pj) (hne : i ≠ j)
    (hri : pr_get_repo_shas pi repo = .ok si) (hrj : pr_get_repo_shas pj repo = .ok sj)
    (hsi : s ∈ si) (hsj : s ∈ sj) : False := by
  induction ps generalizing m i j with
  | nil => cases hgi
  | cons p0 rest ih =>
    rcases hres0 : pr_get_repo_shas p0 repo with e0 | shas0
    · simp only [verify_build_shas, hres0] at h
      cases h
    · rcases hins : insertShas p0.number shas0 m with e1 | m1
      · simp only [verify_build_shas, hres0, hins] at h
        cases h
      · simp only [verify_build_shas, hres0, hins] at h
        match i, j with
        | 0, 0 => exact hne rfl
        | 0, j' + 1 =>
          have hpi : p0 = pi := by simpa using hgi
          subst hpi
          have hgj' : rest.get? j' = some pj := by
            rw [List.get?_cons_succ] at hgj
            exact hgj
          have hpj : pj ∈ rest := List.get?_mem hgj'
          rw [hres0] at hri
          cases hri
          have h1 : hasKey s m1 = true := insertShas_puts _ _ _ _ hins s hsi
          have h2 : hasKey s m1 = false := build_shas_fresh repo rest m1 m' h pj hpj sj hrj s hsj
          rw [h1] at h2
          cases h2
        | i' + 1, 0 =>
          have hpj : p0 = pj := by simpa using hgj
          subst hpj
          have hgi' : rest.get? i' = some pi := by
            rw [List.get?_cons_succ] at hgi
            exact hgi
          have hpi : pi ∈ rest := List.get?_mem hgi'
          rw [hres0] at hrj
          cases hrj
          have h1 : hasKey s m1 = true := insertShas_puts _ _ _ _ hins s hsj
          have h2 : hasKey s m1 = false := build_shas_fresh repo rest m1 m' h pi hpi si hri s hsi
          rw [h1] at h2
          cases h2
        | i' + 1, j' + 1 =>
          have hgi' : rest.get? i' = some pi := by
            rw [List.get?_cons_succ] at hgi
            exact hgi
          have hgj' : rest.get? j' = some pj := by
            rw [List.get?_cons_succ] at hgj
            exact hgj
          exact ih m1 i' j' h hgi' hgj' (fun hc => hne (by rw [hc]))

/-- A fully resolvable issue list makes the warning pass succeed. -/
theorem issue_pass_ok (m : List (String × Nat)) (issues : List Issue)
    (hall : ∀ iss ∈ issues, (issue_get_closing_sha iss).isOk = true) :
    (verify_issue_pass m issues).isOk = true := by
  induction issues with
  | nil => rw [verify_issue_pass]; rfl
  | cons iss rest ih =>
    have hiss := hall iss (List.mem_cons_self iss rest)
    have hrest := ih (fun i hi => hall i (List.mem_cons_of_mem iss hi))
    rcases hres : issue_get_closing_sha iss with e | v
    · rw [hres] at hiss
      cases hiss
    · rcases v with _ | s
      · simp only [verify_issue_pass, hres]
        exact hrest
      · rcases hp : verify_issue_pass m rest with e | ws
        · rw [hp] at hrest
          cases hrest
        · by_cases hk : hasKey s m = true
          · simp [verify_issue_pass, hres, hp, hk, Except.isOk, Except.toBool]
          · simp only [Bool.not_eq_true] at hk
            simp [verify_issue_pass, hres, hp, hk, Except.isOk, Except.toBool]

/-- C4: the coverage verifier fails whenever two pull requests at
distinct positions resolve to an overlapping commit sha (the mapping
never associates one commit with two pull requests); and when every
issue's closing-sha resolution succeeds, the issue pass of the verifier
only produces warnings — it never fails, in particular not for an issue
whose closing sha is absent from the mapping. -/
theorem c4_collision_fails_absence_warns (repo : Repo) (pulls issues : List Issue)
    (m : List (String × Nat)) :
    (∀ i j pi pj si sj s, pulls.get? i = some pi → pulls.get? j = some pj → i ≠ j →
        pr_get_repo_shas pi repo = .ok si → pr_get_repo_shas pj repo = .ok sj →
        s ∈ si → s ∈ sj →
        (verify_issue_fixes_are_milestoned repo issues pulls).isOk = false) ∧
    ((∀ iss ∈ issues, (issue_get_closing_sha iss).isOk = true) →
      (verify_issue_pass m issues).isOk = true) := by
  constructor
  · intro i j pi pj si sj s hgi hgj hne hri hrj hsi hsj
    rw [verify_issue_fixes_are_milestoned]
    rcases hb : verify_build_shas repo pulls [] with e | m'
    · rfl
    · exact absurd (build_shas_disjoint repo pulls [] m' i j pi pj si sj s hb
        hgi hgj hne hri hrj hsi hsj) (fun h => h)
  · exact issue_pass_ok m issues

/-- C4 witness: the two distinct pull requests `prB` and `prB2` both
resolve to commit `B1`, so the verifier fails; the issue `issueC`
resolves to a sha absent from the empty mapping and only warns. -/
theorem c4_witness :
    (verify_issue_fixes_are_milestoned repoB [issueC] [prB, prB2]).isOk = false ∧
    (verify_issue_pass [] [issueC]).isOk = true :=
  ⟨(c4_collision_fails_absence_warns repoB [prB, prB2] [issueC] []).1 0 1 prB prB2
      ["B1"] ["B1"] "B1" rfl rfl (by decide) rfl rfl (by decide) (by decide),
   (c4_collision_fails_absence_warns repoB [prB, prB2] [issueC] []).2 (by decide)⟩

/-- C5 counterexample: for a closed issue whose event log is a 'closed'
event with no commit followed by an event with no commit — closed, with
no qualifying closing reference — the legacy event-log variant raises
instead of returning null. -/
theorem c5_counterexample :
    issue_get_closing_sha_legacy [evClosedNC, evCommentNC] =
      .error "issue was closed but no commit was associated" := rfl

/-- A node list that is all inside the repository but carries no merge
commit makes the graphql scan of a closed issue return `None`. -/
theorem closingScan_none (issue : Issue) (nodes : List RefNode)
    (hclosed : issue.state = "closed")
    (hnodes : ∀ n ∈ nodes, strStarts n.permalink pullUrlBase = true ∧ n.mergeCommit = none) :
    closingScan issue nodes = .ok none := by
  induction nodes with
  | nil => simp [closingScan, hclosed]
  | cons n rest ih =>
    have hn := hnodes n (List.mem_cons_self n rest)
    rw [closingScan, if_neg (by simp [hn.1])]
    rw [hn.2]
    exact ih (fun x hx => hnodes x (List.mem_cons_of_mem n hx))

/-- C5 (amended): for a closed issue with no qualifying closing
reference, the graphql variant (`issue_get_closing_sha`) returns null
after surfacing a warning; the legacy event-log variant
(`issue_get_closing_sha_legacy`), however, fails with an error whenever
the 'closed' event carries no commit and its immediate successor lacks
a commit id or url — it has no null fallback. -/
theorem c5_no_reference_null_vs_error (iss : Issue) (e1 e2 : Event) (rest : List Event)
    (hclosed : iss.state = "closed")
    (hnodes : ∀ n ∈ iss.nodes, strStarts n.permalink pullUrlBase = true ∧ n.mergeCommit = none)
    (h1 : e1.event = "closed") (h1c : e1.commit_id = none)
    (h2 : e2.commit_id = none ∨ e2.commit_url = none) :
    issue_get_closing_sha iss = .ok none ∧
    issue_get_closing_sha_legacy (e1 :: e2 :: rest) =
      .error "issue was closed but no commit was associated" := by
  constructor
  · exact closingScan_none iss iss.nodes hclosed hnodes
  · have hif : (if e1.commit_id = none then (e2 :: rest).head? else some e1) = some e2 := by
      rw [h1c]
      rfl
    rw [issue_get_closing_sha_legacy, if_neg (by simp [h1]), hif]
    rcases h2 with h2a | h2b
    · rcases hu : e2.commit_url with _ | u
      · simp [h2a, hu]
      · simp [h2a, hu]
    · rcases hc : e2.commit_id with _ | c
      · simp [h2b, hc]
      · simp [h2b, hc]

/-- C5 witness: the amended statement applied to the manually closed
issue `issueD` and the no-commit event pair. -/
theorem c5_witness :
    issue_get_closing_sha issueD = .ok none ∧
    issue_get_closing_sha_legacy [evClosedNC, evCommentNC] =
      .error "issue was closed but no commit was associated" :=
  c5_no_reference_null_vs_error issueD evClosedNC evCommentNC [] rfl (by decide)
    rfl rfl (Or.inl rfl)

/-- C6: patch materialization is idempotent — a pre-existing patch file
with the PR's deterministic name, whether in the active output
directory or in the archived done subdirectory, makes the step skip
with zero network fetches and an unchanged file system; and once a
step has written its file, re-running the step on the resulting file
system skips with zero network fetches. -/
theorem c6_materialize_idempotent (net : String → Option String) (repo : Repo)
    (tf : String → String → String) (fs fs' : List String) (d : Nat) (issuepr : Issue)
    (n : Nat) :
    ((fs.contains (outPath (patchName d issuepr.patch_url)) = true ∨
        fs.contains (donePath (patchName d issuepr.patch_url)) = true) →
      materializeStep net repo tf fs d issuepr = .ok (.skipped, fs, 0)) ∧
    (materializeStep net repo tf fs d issuepr = .ok (.written, fs', n) →
      materializeStep net repo tf fs' d issuepr = .ok (.skipped, fs', 0)) := by
  constructor
  · rintro (h | h)
    · simp only [materializeStep, h, Bool.true_or, if_true]
    · simp only [materializeStep, h, Bool.or_true, if_true]
  · intro h
    simp only [materializeStep] at h
    split at h
    · simp at h
    · split at h
      · cases h
      · split at h
        · simp at h
        · rename_i heq
          obtain ⟨rfl, -⟩ : fs' = outPath (patchName d issuepr.patch_url) :: fs ∧ True := by
            injection h with h'
            injection h' with h1 h2
            injection h2 with h3 h4
            exact ⟨h3.symm, trivial⟩
          simp only [materializeStep]
          rw [if_pos]
          rw [List.contains_cons]
          simp

/-- C6 witness: a patch file archived only in the done subdirectory
makes the step skip `prB` with no fetch, and writing `prB`'s patch then
re-running the step on the resulting file system skips it. -/
theorem c6_witness :
    materializeStep netB repoB tfB [donePath (patchName 100 prB.patch_url)] 100 prB =
      .ok (.skipped, [donePath (patchName 100 prB.patch_url)], 0) ∧
    materializeStep netB repoB tfB [outPath (patchName 100 prB.patch_url)] 100 prB =
      .ok (.skipped, [outPath (patchName 100 prB.patch_url)], 0) :=
  ⟨(c6_materialize_idempotent netB repoB tfB [donePath (patchName 100 prB.patch_url)] []
      100 prB 0).1 (Or.inr (by decide)),
   (c6_materialize_idempotent netB repoB tfB [] [outPath (patchName 100 prB.patch_url)]
      100 prB 1).2 rfl⟩

/-- A fetch loop over known commits with at least one failing download
ends in an error carrying a url whose fetch failed. -/
theorem fetchLoop_fails (net : String → Option String) (repo : Repo)
    (tf : String → String → String) (l : List String)
    (hall : ∀ s ∈ l, (repo.getCommit s).isSome = true)
    (hfail : ∃ s ∈ l, net (commitPatchUrl repo s) = none) :
    ∃ u n, fetchLoop net repo tf l = (.error u, n) ∧ net u = none := by
  induction l with
  | nil =>
    rcases hfail with ⟨s, hs, _⟩
    cases hs
  | cons a rest ih =>
    have ha : (repo.getCommit a).isSome = true := hall a (List.mem_cons_self a rest)
    rcases hc : repo.getCommit a with _ | c
    · rw [hc] at ha
      cases ha
    · by_cases hn : net (c.html_url ++ ".patch") = none
      · refine ⟨c.html_url ++ ".patch", 1, ?_, hn⟩
        simp only [fetchLoop, hc, hn]
      · rcases hfail with ⟨s, hs, hsn⟩
        rcases List.mem_cons.mp hs with rfl | hs'
        · rw [commitPatchUrl, hc] at hsn
          exact absurd hsn hn
        · obtain ⟨u, n, hfl, hu⟩ :=
            ih (fun x hx => hall x (List.mem_cons_of_mem a hx)) ⟨s, hs', hsn⟩
          rcases hnet : net (c.html_url ++ ".patch") with _ | text
          · exact absurd hnet hn
          · exact ⟨u, n + 1, by simp only [fetchLoop, hc, hnet, hfl], hu⟩

/-- C7: if downloading any commit of a pull request's resolved sequence
fails, `pr_to_patch` aborts the whole PR with the failing fetch url in
the error, and the materialization step records a failure with the
file system unchanged — no partial patch file is written. -/
theorem c7_fetch_failure_aborts (net : String → Option String) (repo : Repo)
    (tf : String → String → String) (fs : List String) (d : Nat) (issuepr : Issue)
    (shas : List String)
    (hres : pr_get_repo_shas issuepr repo = .ok shas)
    (hout : fs.contains (outPath (patchName d issuepr.patch_url)) = false)
    (hdone : fs.contains (donePath (patchName d issuepr.patch_url)) = false)
    (hall : ∀ s ∈ shas, (repo.getCommit s).isSome = true)
    (hfail : ∃ s ∈ shas, net (commitPatchUrl repo s) = none) :
    (∃ u n, pr_to_patch net repo tf shas = (.error u, n) ∧ net u = none) ∧
    (∃ n, materializeStep net repo tf fs d issuepr = .ok (.failed, fs, n)) := by
  have hall' : ∀ s ∈ shas.reverse, (repo.getCommit s).isSome = true := by
    intro s hs
    exact hall s (List.mem_reverse.mp hs)
  have hfail' : ∃ s ∈ shas.reverse, net (commitPatchUrl repo s) = none := by
    rcases hfail with ⟨s, hs, hn⟩
    exact ⟨s, List.mem_reverse.mpr hs, hn⟩
  obtain ⟨u, n, hfl, hu⟩ := fetchLoop_fails net repo tf shas.reverse hall' hfail'
  have hpp : pr_to_patch net repo tf shas = (.error u, n) := by
    rw [pr_to_patch, hfl]
  refine ⟨⟨u, n, hpp, hu⟩, n, ?_⟩
  simp only [materializeStep, hout, hdone, Bool.or_self, if_false, hres, hpp]
  rfl

/-- C7 witness: the failing transport aborts `prB`'s materialization and
leaves the file system unchanged. -/
theorem c7_witness :
    (∃ u n, pr_to_patch netFail repoB tfB ["B1"] = (.error u, n) ∧ netFail u = none) ∧
    (∃ n, materializeStep netFail repoB tfB [] 100 prB = .ok (.failed, [], n)) :=
  c7_fetch_failure_aborts netFail repoB tfB [] 100 prB ["B1"] rfl rfl rfl
    (by decide) ⟨"B1", by decide, rfl⟩

/-- A closed-but-unmerged pull request anywhere in the milestone items
makes the intake loop terminate with an error. -/
theorem intake_unmerged_error (items : List Issue) (iss0 pls0 : List (Nat × Issue))
    (h : ∃ it ∈ items, it.is_pr = true ∧ it.merged = false) :
    ∃ e, milestoneIntakeAux iss0 pls0 items = .error e := by
  induction items generalizing iss0 pls0 with
  | nil =>
    rcases h with ⟨it, hit, -⟩
    cases hit
  | cons a rest ih =>
    rcases h with ⟨it, hit, hpr, hm⟩
    rcases List.mem_cons.mp hit with rfl | hit'
    · rcases hapr : it.is_pr with _ | _
      · rw [hapr] at hpr
        cases hpr
      · refine ⟨"Pull request was closed, not merged. Remove it from the milestone.", ?_⟩
        simp [milestoneIntakeAux, hapr, hm]
    · rcases hapr : a.is_pr with _ | _
      · obtain ⟨e, he⟩ := ih (dinsert a.closed_at a iss0) pls0 ⟨it, hit', hpr, hm⟩
        exact ⟨e, by simp [milestoneIntakeAux, hapr, he]⟩
      · rcases ham : a.merged with _ | _
        · exact ⟨"Pull request was closed, not merged. Remove it from the milestone.",
            by simp [milestoneIntakeAux, hapr, ham]⟩
        · obtain ⟨e, he⟩ := ih iss0 (dinsert a.closed_at a pls0) ⟨it, hit', hpr, hm⟩
          exact ⟨e, by simp [milestoneIntakeAux, hapr, ham, he]⟩

/-- A materialization step never crashes when the PR's sha resolution
succeeds: it skips, fails, or writes. -/
theorem step_ok_of_resolvable (net : String → Option String) (repo : Repo)
    (tf : String → String → String) (fs : List String) (d : Nat) (p : Issue)
    (h : (pr_get_repo_shas p repo).isOk = true) :
    ∃ o fs1 n, materializeStep net repo tf fs d p = .ok (o, fs1, n) := by
  simp only [materializeStep]
  by_cases hg : (fs.contains (outPath (patchName d p.patch_url)) ||
      fs.contains (donePath (patchName d p.patch_url))) = true
  · rw [if_pos hg]
    exact ⟨.skipped, fs, 0, rfl⟩
  · rw [if_neg hg]
    rcases hres : pr_get_repo_shas p repo with e | shas
    · rw [hres] at h
      cases h
    · rcases hp : pr_to_patch net repo tf shas with ⟨r, n⟩
      rcases r with e | patch
      · exact ⟨.failed, fs, n, by simp only [hp]⟩
      · exact ⟨.written, outPath (patchName d p.patch_url) :: fs, n, by simp only [hp]⟩

/-- When every pull in the dictionary resolves, the materialization loop
runs to completion and yields one outcome per pull, whatever the
individual fetch outcomes are. -/
theorem materializeLoop_total (net : String → Option String) (repo : Repo)
    (tf : String → String → String) (pulls : List (Nat × Issue)) (fs : List String)
    (hall : ∀ p ∈ pulls, (pr_get_repo_shas p.2 repo).isOk = true) :
    ∃ os fs2 n, materializeLoop net repo tf fs pulls = .ok (os, fs2, n) ∧
      os.length = pulls.length := by
  induction pulls generalizing fs with
  | nil => exact ⟨[], fs, 0, rfl, rfl⟩
  | cons dp rest ih =>
    obtain ⟨d, p⟩ := dp
    obtain ⟨o, fs1, n, hstep⟩ := step_ok_of_resolvable net repo tf fs d p
      (hall (d, p) (List.mem_cons_self (d, p) rest))
    obtain ⟨os, fs2, nm, hloop, hlen⟩ :=
      ih fs1 (fun q hq => hall q (List.mem_cons_of_mem (d, p) hq))
    refine ⟨o :: os, fs2, n + nm, ?_, by simp [hlen]⟩
    simp only [materializeLoop, hstep, hloop]

/-- C8: a closed-but-unmerged pull request on the milestone makes the
intake loop fail, and the whole pipeline terminates with that same
error, before verification or materialization run; whereas when every
pull resolves, individual patch fetch failures are non-fatal — the
materialization loop still yields one outcome per pull request. -/
theorem c8_unmerged_fatal_fetch_failure_not (no_verify : Bool)
    (net : String → Option String) (repo : Repo) (tf : String → String → String)
    (fs : List String) (items : List Issue) (pulls : List (Nat × Issue)) :
    ((∃ it ∈ items, it.is_pr = true ∧ it.merged = false) →
      ∃ e, milestoneIntake items = .error e ∧
        runPipeline no_verify net repo tf fs items = .error e) ∧
    ((∀ p ∈ pulls, (pr_get_repo_shas p.2 repo).isOk = true) →
      ∃ os fs2 n, materializeLoop net repo tf fs pulls = .ok (os, fs2, n) ∧
        os.length = pulls.length) := by
  constructor
  · intro h
    obtain ⟨e, he⟩ := intake_unmerged_error items [] [] h
    have he' : milestoneIntake items = .error e := by
      rw [milestoneIntake]
      exact he
    exact ⟨e, he', by simp only [runPipeline, he']⟩
  · exact materializeLoop_total net repo tf pulls fs

/-- C8 witness: the unmerged pull request `prU` kills the run at intake;
the resolvable `prB` under an always-failing transport still gets an
outcome from the loop. -/
theorem c8_witness :
    (∃ e, milestoneIntake [prU] = .error e ∧
      runPipeline false netFail repoB tfB [] [prU] = .error e) ∧
    (∃ os fs2 n, materializeLoop netFail repoB tfB [] [(100, prB)] = .ok (os, fs2, n) ∧
      os.length = [(100, prB)].length) :=
  ⟨(c8_unmerged_fatal_fetch_failure_not false netFail repoB tfB [] [prU] [(100, prB)]).1
      ⟨prU, by decide, rfl, rfl⟩,
   (c8_unmerged_fatal_fetch_failure_not false netFail repoB tfB [] [prU] [(100, prB)]).2
      (by decide)⟩

/-- Looking up the key just inserted finds the new value. -/
theorem dlookup_dinsert_self (k : Nat) (v : Issue) (m : List (Nat × Issue)) :
    dlookup k (dinsert k v m) = some v := by
  induction m with
  | nil => simp [dinsert, dlookup]
  | cons kv rest ih =>
    obtain ⟨k', v'⟩ := kv
    by_cases hk : k = k'
    · subst hk
      simp [dinsert, dlookup]
    · simp [dinsert, dlookup, hk, ih]

/-- Inserting under a different key does not change a lookup. -/
theorem dlookup_dinsert_other (k k' : Nat) (v : Issue) (m : List (Nat × Issue))
    (h : k ≠ k') : dlookup k (dinsert k' v m) = dlookup k m := by
  induction m with
  | nil => simp [dinsert, dlookup, h]
  | cons kv rest ih =>
    obtain ⟨k2, v2⟩ := kv
    by_cases hk : k' = k2
    · subst hk
      simp [dinsert, dlookup, h]
    · by_cases hkk : k = k2
      · subst hkk
        simp [dinsert, dlookup, hk, h]
      · simp [dinsert, dlookup, hk, hkk, ih]

/-- A non-empty list has a last element. -/
theorem lastOf_cons_isSome (b : Issue) (r : List Issue) :
    ∃ x, lastOf (b :: r) = some x := by
  induction r generalizing b with
  | nil => exact ⟨b, rfl⟩
  | cons c r' ih => exact ih c

/-- Unfolding `lastOf` over a cons. -/
theorem lastOf_cons (a : Issue) (l : List Issue) :
    lastOf (a :: l) = olast (lastOf l) (some a) := by
  cases l with
  | nil => rfl
  | cons b r =>
    obtain ⟨x, hx⟩ := lastOf_cons_isSome b r
    rw [lastOf, hx]
    rfl

/-- The dictionary fallback choice ignores a `none` fallback. -/
theorem olast_none (a : Option Issue) : olast a none = a := by
  cases a <;> rfl

/-- The invariant of the intake loop: the timestamp lookup of each
result dictionary is the last matching milestone item, falling back to
the loop's starting dictionary. -/
theorem intakeAux_lookup (t : Nat) (l : List Issue) (iss0 pls0 iss pls : List (Nat × Issue))
    (h : milestoneIntakeAux iss0 pls0 l = .ok (iss, pls)) :
    dlookup t pls = olast (lastOf (l.filter (fun i => i.is_pr && i.closed_at == t)))
      (dlookup t pls0) ∧
    dlookup t iss = olast (lastOf (l.filter (fun i => !i.is_pr && i.closed_at == t)))
      (dlookup t iss0) := by
  induction l generalizing iss0 pls0 with
  | nil =>
    rw [milestoneIntakeAux] at h
    cases h
    exact ⟨rfl, rfl⟩
  | cons a rest ih =>
    rcases hapr : a.is_pr with _ | _
    · simp only [milestoneIntakeAux, hapr, Bool.false_eq_true, if_false] at h
      have hrec := ih (dinsert a.closed_at a iss0) pls0 h
      have hfp : List.filter (fun i => i.is_pr && i.closed_at == t) (a :: rest) =
          List.filter (fun i => i.is_pr && i.closed_at == t) rest := by
        rw [List.filter_cons]
        simp [hapr]
      by_cases ht : a.closed_at = t
      · have hfi : List.filter (fun i => !i.is_pr && i.closed_at == t) (a :: rest) =
            a :: List.filter (fun i => !i.is_pr && i.closed_at == t) rest := by
          rw [List.filter_cons]
          simp [hapr, ht]
        rw [hfp, hfi]
        refine ⟨hrec.1, ?_⟩
        rw [lastOf_cons]
        rcases hlast : lastOf (rest.filter (fun i => !i.is_pr && i.closed_at == t)) with _ | x
        · rw [hrec.2, hlast]
          subst ht
          simp [olast, dlookup_dinsert_self]
        · rw [hrec.2, hlast]
          rfl
      · have hfi : List.filter (fun i => !i.is_pr && i.closed_at == t) (a :: rest) =
            List.filter (fun i => !i.is_pr && i.closed_at == t) rest := by
          rw [List.filter_cons]
          simp [ht]
        rw [hfp, hfi, hrec.1, hrec.2,
          dlookup_dinsert_other t a.closed_at a iss0 (fun hc => ht hc.symm)]
        exact ⟨rfl, rfl⟩
    · rcases ham : a.merged with _ | _
      · simp only [milestoneIntakeAux, hapr, ham, if_true, Bool.false_eq_true, if_false] at h
        cases h
      · simp only [milestoneIntakeAux, hapr, ham, if_true] at h
        have hrec := ih iss0 (dinsert a.closed_at a pls0) h
        have hfi : List.filter (fun i => !i.is_pr && i.closed_at == t) (a :: rest) =
            List.filter (fun i => !i.is_pr && i.closed_at == t) rest := by
          rw [List.filter_cons]
          simp [hapr]
        by_cases ht : a.closed_at = t
        · have hfp : List.filter (fun i => i.is_pr && i.closed_at == t) (a :: rest) =
              a :: List.filter (fun i => i.is_pr && i.closed_at == t) rest := by
            rw [List.filter_cons]
            simp [hapr, ht]
          rw [hfp, hfi]
          refine ⟨?_, hrec.2⟩
          rw [lastOf_cons]
          rcases hlast : lastOf (rest.filter (fun i => i.is_pr && i.closed_at == t)) with _ | x
          · rw [hrec.1, hlast]
            subst ht
            simp [olast, dlookup_dinsert_self]
          · rw [hrec.1, hlast]
            rfl
        · have hfp : List.filter (fun i => i.is_pr && i.closed_at == t) (a :: rest) =
              List.filter (fun i => i.is_pr && i.closed_at == t) rest := by
            rw [List.filter_cons]
            simp [ht]
          rw [hfp, hfi, hrec.1, hrec.2,
            dlookup_dinsert_other t a.closed_at a pls0 (fun hc => ht hc.symm)]
          exact ⟨rfl, rfl⟩

/-- Membership in the key list after a dictionary insert. -/
theorem mem_keys_dinsert (x k : Nat) (v : Issue) (m : List (Nat × Issue)) :
    x ∈ (dinsert k v m).map Prod.fst ↔ x = k ∨ x ∈ m.map Prod.fst := by
  induction m with
  | nil => simp [dinsert]
  | cons kv rest ih =>
    obtain ⟨k2, v2⟩ := kv
    by_cases hk : k = k2
    · subst hk
      simp [dinsert]
    · simp [dinsert, hk, ih]
      tauto

/-- A dictionary insert keeps the keys distinct. -/
theorem dinsert_keys_nodup (k : Nat) (v : Issue) (m : List (Nat × Issue))
    (h : (m.map Prod.fst).Nodup) : ((dinsert k v m).map Prod.fst).Nodup := by
  induction m with
  | nil => simp [dinsert]
  | cons kv rest ih =>
    obtain ⟨k2, v2⟩ := kv
    rw [List.map_cons, List.nodup_cons] at h
    by_cases hk : k = k2
    · subst hk
      have hd : dinsert k v ((k, v2) :: rest) = (k, v) :: rest := by
        rw [dinsert, if_pos rfl]
      rw [hd, List.map_cons, List.nodup_cons]
      exact h
    · simp only [dinsert, if_neg hk, List.map_cons, List.nodup_cons]
      refine ⟨?_, ih h.2⟩
      rw [mem_keys_dinsert]
      rintro (rfl | hmem)
      · exact hk rfl
      · exact h.1 hmem

/-- The intake loop keeps the keys of both dictionaries distinct. -/
theorem intakeAux_keys_nodup (l : List Issue) (iss0 pls0 iss pls : List (Nat × Issue))
    (h : milestoneIntakeAux iss0 pls0 l = .ok (iss, pls))
    (h1 : (iss0.map Prod.fst).Nodup) (h2 : (pls0.map Prod.fst).Nodup) :
    (iss.map Prod.fst).Nodup ∧ (pls.map Prod.fst).Nodup := by
  induction l generalizing iss0 pls0 with
  | nil =>
    rw [milestoneIntakeAux] at h
    cases h
    exact ⟨h1, h2⟩
  | cons a rest ih =>
    rcases hapr : a.is_pr with _ | _
    · simp only [milestoneIntakeAux, hapr, Bool.false_eq_true, if_false] at h
      exact ih (dinsert a.closed_at a iss0) pls0 h (dinsert_keys_nodup _ _ _ h1) h2
    · rcases ham : a.merged with _ | _
      · simp only [milestoneIntakeAux, hapr, ham, if_true, Bool.false_eq_true, if_false] at h
        cases h
      · simp only [milestoneIntakeAux, hapr, ham, if_true] at h
        exact ih iss0 (dinsert a.closed_at a pls0) h h1 (dinsert_keys_nodup _ _ _ h2)

/-- C9: both milestone dictionaries are keyed by the closed timestamp:
for any timestamp, the retained entry is the LAST enumerated matching
item (earlier items with an equal `closed_at` are silently dropped),
and each timestamp occurs at most once per dictionary, so at most one
item per (kind, timestamp) pair is ever verified or materialized. -/
theorem c9_timestamp_key_last_wins (items : List Issue) (iss pls : List (Nat × Issue))
    (t : Nat) (h : milestoneIntake items = .ok (iss, pls)) :
    dlookup t pls = lastOf (items.filter (fun i => i.is_pr && i.closed_at == t)) ∧
    dlookup t iss = lastOf (items.filter (fun i => !i.is_pr && i.closed_at == t)) ∧
    (pls.map Prod.fst).Nodup ∧ (iss.map Prod.fst).Nodup := by
  rw [milestoneIntake] at h
  have hl := intakeAux_lookup t items [] [] iss pls h
  have hn := intakeAux_keys_nodup items [] [] iss pls h (by simp) (by simp)
  refine ⟨?_, ?_, hn.2, hn.1⟩
  · rw [hl.1]
    exact olast_none _
  · rw [hl.2]
    exact olast_none _

/-- C9 witness: two merged pull requests sharing `closed_at = 5`; only
the later one, `prY`, is retained. -/
theorem c9_witness :
    dlookup 5 [(5, prY)] = lastOf ([prX, prY].filter (fun i => i.is_pr && i.closed_at == 5)) ∧
    dlookup 5 [] = lastOf ([prX, prY].filter (fun i => !i.is_pr && i.closed_at == 5)) ∧
    (([(5, prY)] : List (Nat × Issue)).map Prod.fst).Nodup ∧
    (([] : List (Nat × Issue)).map Prod.fst).Nodup :=
  c9_timestamp_key_last_wins [prX, prY] [] [(5, prY)] 5 rfl

/-- A milestone whose closed items are all pull requests leaves the
issue dictionary at its starting value. -/
theorem intake_all_pr_issues (l : List Issue) (iss0 pls0 iss pls : List (Nat × Issue))
    (hall : ∀ it ∈ l, it.is_pr = true)
    (h : milestoneIntakeAux iss0 pls0 l = .ok (iss, pls)) : iss = iss0 := by
  induction l generalizing pls0 with
  | nil =>
    rw [milestoneIntakeAux] at h
    cases h
    rfl
  | cons a rest ih =>
    have ha := hall a (List.mem_cons_self a rest)
    rcases ham : a.merged with _ | _
    · simp only [milestoneIntakeAux, ha, ham, if_true, Bool.false_eq_true, if_false] at h
      cases h
    · simp only [milestoneIntakeAux, ha, ham, if_true] at h
      exact ih (dinsert a.closed_at a pls0) (fun x hx => hall x (List.mem_cons_of_mem a hx)) h

/-- C10: when every closed milestone item is a pull request, the run
with verification enabled is indistinguishable from the run with
verification suppressed — the coverage verifier (and hence its
duplicate-commit `IntegrityError`) is skipped entirely. -/
theorem c10_no_issues_skips_verification (net : String → Option String) (repo : Repo)
    (tf : String → String → String) (fs : List String) (items : List Issue)
    (hall : ∀ it ∈ items, it.is_pr = true) :
    runPipeline false net repo tf fs items = runPipeline true net repo tf fs items := by
  rcases hin : milestoneIntake items with e | p
  · simp only [runPipeline, hin]
  · obtain ⟨iss, pls⟩ := p
    have hiss : iss = [] := by
      rw [milestoneIntake] at hin
      exact intake_all_pr_issues items [] [] iss pls hall hin
    subst hiss
    simp [runPipeline, hin]

/-- C10 witness: a milestone of one merged pull request runs identically
with and without verification. -/
theorem c10_witness :
    runPipeline false netB repoB tfB [] [prX] = runPipeline true netB repoB tfB [] [prX] :=
  c10_no_issues_skips_verification netB repoB tfB [] [prX] (by decide)

end StableRelease
